import Mathlib

/-!
# SimpleCalculator: a shallow embedding of `src/SimpleCalculator.cpp`

The C++ class `calc::SimpleCalculator` offers `Add`, `Subtract`, `Multiply`,
`Divide` and `SetHistory`; every arithmetic method formats one line of text in
`LogOperation` and hands it to the `IHistory` object behind the member
`m_history`.

Modelling decisions:

* `int` is a 32-bit two's-complement integer.  Values are `Int`s in the range
  `INT_MIN .. INT_MAX`; the results of `+`, `-` and `*` are reduced into that
  range with `wrap32` (arithmetic modulo `2^32`).
* `a / b` on `int` is the quotient truncated toward zero.  At `(INT_MIN, -1)`
  the quotient `2^31` is not an `int`; the division has no result there and
  the process is stopped by the arithmetic fault `SIGFPE` (`intDiv`).
* History objects live in a heap indexed by address.  The observable content
  of a history object is the sequence of strings it received through
  `AddEntry`, oldest first.
* A call that does not return, because an exception is thrown or the process
  is stopped by a fault, is the `Except.error` branch of a method's result;
  the heap as the call left it is returned next to it.
* The history store (`AddEntry`, `GetLastOperations`) is implemented outside
  `src/`; its two methods follow the wording of the specification.
* A caller is a list of calls made one after the other on one calculator
  (`applyAll`, `callAll`).
-/

namespace Calc

/-! ## The type `int` -/

/-- Smallest value of `int`, `std::numeric_limits<int>::min()`. -/
def INT_MIN : Int := -2147483648

/-- Largest value of `int`, `std::numeric_limits<int>::max()`. -/
def INT_MAX : Int := 2147483647

/-- Predicate saying that `a` is a value of the 32-bit type `int`. -/
def isInt32 (a : Int) : Prop := INT_MIN ≤ a ∧ a ≤ INT_MAX

instance (a : Int) : Decidable (isInt32 a) := by
  unfold isInt32; exact inferInstance

/-- Reduction of an exact integer to the 32-bit two's-complement value that is
congruent to it modulo `2^32`. -/
def wrap32 (x : Int) : Int := (x + 2147483648) % 4294967296 - 2147483648

/-- C++ `a / b` on `int` for a divisor `b ≠ 0`: the quotient truncated toward
zero.  For 32-bit operands that quotient is a 32-bit value except at
`(INT_MIN, -1)`, where it is `2^31`: there the expression has no defined value
and the division instruction faults, so no value is produced (`none`). -/
def intDiv (a b : Int) : Option Int :=
  if a = INT_MIN ∧ b = -1 then none else some (wrap32 (Int.tdiv a b))

/-! ## Text output of `std::ostringstream` -/

/-- Character of one decimal digit. -/
def digitChar (d : Nat) : Char :=
  match d with
  | 0 => '0'
  | 1 => '1'
  | 2 => '2'
  | 3 => '3'
  | 4 => '4'
  | 5 => '5'
  | 6 => '6'
  | 7 => '7'
  | 8 => '8'
  | _ => '9'

/-- Decimal digits of `n`, most significant first, without leading zeros
(`0` is the single digit `0`).  The first argument bounds the number of
digits produced. -/
def natDigits : Nat → Nat → List Char
  | 0, _ => []
  | fuel + 1, n =>
    if n < 10 then [digitChar n]
    else natDigits fuel (n / 10) ++ [digitChar (n % 10)]

/-- Decimal rendering of a natural number. -/
def natToDecimal (n : Nat) : String := String.mk (natDigits (n + 1) n)

/-- Rendering of `oss << a` for an `int` with the stream's default flags:
decimal digits, preceded by `-` when the value is negative. -/
def intToDecimal : Int → String
  | Int.ofNat n => natToDecimal n
  | Int.negSucc n => "-" ++ natToDecimal (n + 1)

/-- The text built in `LogOperation`:
`oss << a << " " << op << " " << b << " = " << result`. -/
def formatOperation (a : Int) (op : String) (b : Int) (result : Int) : String :=
  intToDecimal a ++ " " ++ op ++ " " ++ intToDecimal b ++ " = " ++ intToDecimal result

/-! ## History objects -/

/-- Content of one history object: the entries it was given, oldest first. -/
abbrev History := List String

/-- The history objects of the program, by address. -/
abbrev Heap := Nat → History

/-- Modelled from the spec: `IHistory::AddEntry` is declared in `IHistory.h`
and implemented outside `src/`.  Spec 4.2: "`Record(entry: string)`: appends
entry to the ordered log. No failure modes (unbounded capacity)."  The object
at address `r` gains `entry` as its last element; no other object changes. -/
def AddEntry (σ : Heap) (r : Nat) (entry : String) : Heap :=
  Function.update σ r (σ r ++ [entry])

/-- Modelled from the spec: `IHistory.h` is not part of `src/`.  Spec 9
describes the history as an interface with the capability set
`{Record, GetLast}`; an interface class has no data members, so the implicitly
defined `IHistory::operator=(const IHistory&)` that the statement
`m_history = history` selects for the reference member `IHistory& m_history`
copies nothing: the entries of the assigned-to object stay as they are. -/
def IHistory_copyAssign (dst _src : History) : History := dst

/-! ## Exceptions -/

/-- The standard exception classes named by the calculator and its tests. -/
inductive StdException where
  | invalid_argument
  | overflow_error
  deriving DecidableEq, Repr

/-- The ways a call of a calculator method ends without returning a value:
a C++ exception leaves the method and reaches the caller, or the process is
stopped by the signal `SIGFPE` that a faulting integer division raises. -/
inductive Failure where
  | thrown (e : StdException)
  | sigfpe
  deriving DecidableEq, Repr

/-! ## `calc::SimpleCalculator` -/

/-- The calculator object.  Its only member is the reference `m_history`,
represented by the address of the history object it refers to. -/
structure SimpleCalculator where
  m_history : Nat
  deriving DecidableEq, Repr

namespace SimpleCalculator

/-- Constructor `SimpleCalculator(IHistory& history) : m_history(history)`. -/
def ctor (history : Nat) : SimpleCalculator := ⟨history⟩

/-- Method `SetHistory(IHistory& history) { m_history = history; }`.
`m_history` is a reference, so the statement assigns to the object already
referred to (through `IHistory::operator=`); the reference itself is not
reseated and the calculator keeps its member. -/
def SetHistory (self : SimpleCalculator) (history : Nat) (σ : Heap) :
    SimpleCalculator × Heap :=
  (self, Function.update σ self.m_history
    (IHistory_copyAssign (σ self.m_history) (σ history)))

/-- Method `LogOperation(int a, const char* op, int b, int result)`. -/
def LogOperation (self : SimpleCalculator) (a : Int) (op : String) (b : Int)
    (result : Int) (σ : Heap) : Heap :=
  AddEntry σ self.m_history (formatOperation a op b result)

/-- Method `Add(int a, int b)`; the overflow checks are inside a comment. -/
def Add (self : SimpleCalculator) (a b : Int) (σ : Heap) :
    Except Failure Int × Heap :=
  let result := wrap32 (a + b)
  (Except.ok result, self.LogOperation a "+" b result σ)

/-- Method `Subtract(int a, int b)`; the overflow checks are inside a comment. -/
def Subtract (self : SimpleCalculator) (a b : Int) (σ : Heap) :
    Except Failure Int × Heap :=
  let result := wrap32 (a - b)
  (Except.ok result, self.LogOperation a "-" b result σ)

/-- Method `Multiply(int a, int b)`; the overflow checks are inside a comment. -/
def Multiply (self : SimpleCalculator) (a b : Int) (σ : Heap) :
    Except Failure Int × Heap :=
  let result := wrap32 (a * b)
  (Except.ok result, self.LogOperation a "*" b result σ)

/-- Method `Divide(int a, int b)`: throws `std::invalid_argument` when
`b == 0`; otherwise evaluates `int result = a / b`, and when the division
yields a value logs the operation and returns it.  At `(INT_MIN, -1)` the
division faults: the process is stopped by `SIGFPE` before `LogOperation`, so
nothing is returned and nothing is logged. -/
def Divide (self : SimpleCalculator) (a b : Int) (σ : Heap) :
    Except Failure Int × Heap :=
  if b = 0 then (Except.error (Failure.thrown StdException.invalid_argument), σ)
  else
    match intDiv a b with
    | none => (Except.error Failure.sigfpe, σ)
    | some result => (Except.ok result, self.LogOperation a "/" b result σ)

end SimpleCalculator

/-! ## Reading the history back -/

/-- Modelled from the spec: `InMemoryHistory::GetLastOperations` is
implemented outside `src/`.  Spec 4.2: "`GetLast(count: unsigned)`: returns
the last `min(count, size)` entries in original chronological order
(oldest-first among the returned slice)."  The slice starts at index
`size - min(count, size)`. -/
def lastEntries (entries : History) (count : Nat) : List String :=
  entries.drop (entries.length - min count entries.length)

/-- Modelled from the spec: `IHistory::GetLastOperations(size_t count) const`
on the history object at address `r`.  Spec 4.2: "No error for `count`
exceeding size."  The method is `const`: it returns the slice by value and
leaves every history object as it is. -/
def GetLastOperations (σ : Heap) (r : Nat) (count : Nat) :
    Except StdException (List String) × Heap :=
  (Except.ok (lastEntries (σ r) count), σ)

/-- A run of `AddEntry` calls on the history object at address `r`, in the
order of the list. -/
def AddEntries (σ : Heap) (r : Nat) (entries : List String) : Heap :=
  entries.foldl (fun τ e => AddEntry τ r e) σ

/-! ## Sequences of calls -/

/-- One call of an arithmetic method, with its arguments. -/
inductive Operation where
  | Add (a b : Int)
  | Subtract (a b : Int)
  | Multiply (a b : Int)
  | Divide (a b : Int)
  deriving DecidableEq, Repr

namespace Operation

/-- First argument of the call. -/
def lhs : Operation → Int
  | Add a _ => a
  | Subtract a _ => a
  | Multiply a _ => a
  | Divide a _ => a

/-- Second argument of the call. -/
def rhs : Operation → Int
  | Add _ b => b
  | Subtract _ b => b
  | Multiply _ b => b
  | Divide _ b => b

/-- The operator text that the method passes to `LogOperation`. -/
def symbol : Operation → String
  | Add _ _ => "+"
  | Subtract _ _ => "-"
  | Multiply _ _ => "*"
  | Divide _ _ => "/"

end Operation

/-- One call made on a calculator: an arithmetic method or `SetHistory`. -/
inductive Call where
  | op (o : Operation)
  | SetHistory (history : Nat)
  deriving DecidableEq, Repr

namespace SimpleCalculator

/-- The caller's statement `calculator.<Method>(a, b)`. -/
def apply (self : SimpleCalculator) (o : Operation) (σ : Heap) :
    Except Failure Int × Heap :=
  match o with
  | Operation.Add a b => self.Add a b σ
  | Operation.Subtract a b => self.Subtract a b σ
  | Operation.Multiply a b => self.Multiply a b σ
  | Operation.Divide a b => self.Divide a b σ

/-- A caller making the arithmetic calls of the list one after the other on
the same calculator, as the test bodies do; the outcomes are collected in call
order.  A caller that is stopped by a fault makes no further call: its run is
the run of the list cut after the faulting call. -/
def applyAll (self : SimpleCalculator) : List Operation → Heap →
    List (Except Failure Int) × Heap
  | [], σ => ([], σ)
  | o :: os, σ =>
    ((self.apply o σ).1 :: (applyAll self os (self.apply o σ).2).1,
      (applyAll self os (self.apply o σ).2).2)

/-- The caller's statement for one call, arithmetic or `SetHistory`; the value
an arithmetic call returns is dropped. -/
def call (self : SimpleCalculator) (c : Call) (σ : Heap) : SimpleCalculator × Heap :=
  match c with
  | Call.op o => (self, (self.apply o σ).2)
  | Call.SetHistory history => self.SetHistory history σ

/-- A caller making the calls of the list one after the other.  A caller that
is stopped by a fault makes no further call: its run is the run of the list
cut after the faulting call. -/
def callAll (self : SimpleCalculator) : List Call → Heap → SimpleCalculator × Heap
  | [], σ => (self, σ)
  | c :: cs, σ => callAll (self.call c σ).1 cs (self.call c σ).2

end SimpleCalculator

/-! ## Reading an entry back -/

/-- Value of a decimal digit character. -/
def digitValue (c : Char) : Nat := c.toNat - 48

/-- Number written by a list of decimal digits, most significant first. -/
def digitsValue (cs : List Char) : Nat :=
  cs.foldl (fun acc c => 10 * acc + digitValue c) 0

/-! ## Auxiliary facts -/

theorem Divide_of_zero (self : SimpleCalculator) (a : Int) (σ : Heap) :
    self.Divide a 0 σ = (Except.error (Failure.thrown StdException.invalid_argument), σ) := by
  unfold SimpleCalculator.Divide
  rw [if_pos rfl]

theorem Divide_of_fault (self : SimpleCalculator) (σ : Heap) :
    self.Divide INT_MIN (-1) σ = (Except.error Failure.sigfpe, σ) := by
  unfold SimpleCalculator.Divide intDiv
  rw [if_neg (by decide), if_pos ⟨rfl, rfl⟩]

theorem Divide_of_ne_zero (self : SimpleCalculator) (a b : Int) (σ : Heap) (hb : b ≠ 0)
    (hne : ¬ (a = INT_MIN ∧ b = -1)) :
    self.Divide a b σ
      = (Except.ok (wrap32 (Int.tdiv a b)),
          self.LogOperation a "/" b (wrap32 (Int.tdiv a b)) σ) := by
  unfold SimpleCalculator.Divide intDiv
  rw [if_neg hb, if_neg hne]

theorem wrap32_of_isInt32 (x : Int) (h : isInt32 x) : wrap32 x = x := by
  unfold isInt32 INT_MIN INT_MAX at h
  unfold wrap32
  omega

theorem wrap32_isInt32 (x : Int) : isInt32 (wrap32 x) := by
  unfold isInt32 INT_MIN INT_MAX wrap32
  omega

theorem wrap32_congr (x : Int) : (wrap32 x - x) % 4294967296 = 0 := by
  unfold wrap32
  omega

theorem tdiv_isInt32 (a b : Int) (ha : isInt32 a) (hb : b ≠ 0)
    (hne : ¬ (a = INT_MIN ∧ b = -1)) : isInt32 (Int.tdiv a b) := by
  unfold isInt32 INT_MIN INT_MAX at *
  have hq : (Int.tdiv a b).natAbs = a.natAbs / b.natAbs := Int.natAbs_tdiv a b
  have hle : a.natAbs / b.natAbs ≤ a.natAbs := Nat.div_le_self _ _
  by_cases hmin : a = -2147483648
  · subst hmin
    by_cases hpos : 0 < b
    · have h0 : 0 ≤ Int.tdiv 2147483648 b := Int.tdiv_nonneg (by omega) (by omega)
      have hn : Int.tdiv (-2147483648) b = -(Int.tdiv 2147483648 b) :=
        Int.neg_tdiv 2147483648 b
      omega
    · have hb2 : 2 ≤ b.natAbs := by omega
      have h2 : (-2147483648 : Int).natAbs / b.natAbs ≤ (-2147483648 : Int).natAbs / 2 :=
        Nat.div_le_div_left hb2 (by decide)
      have h3 : (-2147483648 : Int).natAbs / 2 = 1073741824 := by decide
      omega
  · omega

theorem update_copyAssign (σ : Heap) (r s : Nat) :
    Function.update σ r (IHistory_copyAssign (σ r) (σ s)) = σ := by
  unfold IHistory_copyAssign
  exact Function.update_eq_self r σ

theorem formatOperation_eq (a b r : Int) (op : String) :
    formatOperation a op b r
      = intToDecimal a ++ (" " ++ op ++ " ") ++ intToDecimal b ++ " = " ++ intToDecimal r := by
  unfold formatOperation
  simp [String.append_assoc]

theorem LogOperation_bound (self : SimpleCalculator) (a b r : Int) (op : String) (σ : Heap) :
    self.LogOperation a op b r σ self.m_history
      = σ self.m_history
          ++ [intToDecimal a ++ (" " ++ op ++ " ") ++ intToDecimal b ++ " = " ++ intToDecimal r] := by
  unfold SimpleCalculator.LogOperation AddEntry
  rw [Function.update_same, formatOperation_eq]

theorem LogOperation_other (self : SimpleCalculator) (a b r : Int) (op : String) (σ : Heap)
    (m : Nat) (hm : m ≠ self.m_history) :
    self.LogOperation a op b r σ m = σ m := by
  unfold SimpleCalculator.LogOperation AddEntry
  exact Function.update_noteq hm _ σ

theorem appended_last (before after : History) (e : String) (h : after = before ++ [e]) :
    after.length = before.length + 1
    ∧ ∀ i, i < before.length → after[i]? = before[i]? := by
  subst h
  refine ⟨by simp, ?_⟩
  intro i hi
  exact List.getElem?_append_left hi

theorem SetHistory_eq (self : SimpleCalculator) (history : Nat) (σ : Heap) :
    self.SetHistory history σ = (self, σ) := by
  unfold SimpleCalculator.SetHistory
  rw [update_copyAssign]

/-! ## Division -/

/-- Division away from the faulting pair: for 32-bit `a`, `b` with `b ≠ 0`,
other than `(INT_MIN, -1)`, `Divide(a,b)` returns the quotient truncated
toward zero, the quotient is itself a 32-bit value, the history the calculator
is bound to gains exactly the entry `"<a> / <b> = <quotient>"` at its end, and
no other history changes. -/
theorem Divide_returns_truncated_quotient_and_logs
    (self : SimpleCalculator) (a b : Int) (σ : Heap)
    (ha : isInt32 a) (_hb : isInt32 b) (hb0 : b ≠ 0)
    (hne : ¬ (a = INT_MIN ∧ b = -1)) :
    (self.Divide a b σ).1 = Except.ok (Int.tdiv a b)
    ∧ isInt32 (Int.tdiv a b)
    ∧ (self.Divide a b σ).2 self.m_history
        = σ self.m_history
            ++ [intToDecimal a ++ " / " ++ intToDecimal b ++ " = "
                  ++ intToDecimal (Int.tdiv a b)]
    ∧ ∀ m, m ≠ self.m_history → (self.Divide a b σ).2 m = σ m := by
  have hq : isInt32 (Int.tdiv a b) := tdiv_isInt32 a b ha hb0 hne
  have hw : wrap32 (Int.tdiv a b) = Int.tdiv a b := wrap32_of_isInt32 _ hq
  rw [Divide_of_ne_zero self a b σ hb0 hne, hw]
  refine ⟨rfl, hq, ?_, ?_⟩
  · exact LogOperation_bound self a b _ "/" σ
  · intro m hm
    exact LogOperation_other self a b _ "/" σ m hm

/-- An instance of the previous fact: `Divide(-7, 2)` on an empty history
returns `-3` and the history becomes `["-7 / 2 = -3"]`. -/
theorem Divide_returns_truncated_quotient_and_logs_witness :
    ((SimpleCalculator.ctor 0).Divide (-7) 2 (fun _ => [])).1 = Except.ok (-3)
    ∧ ((SimpleCalculator.ctor 0).Divide (-7) 2 (fun _ => [])).2 0 = ["-7 / 2 = -3"] :=
  have h := Divide_returns_truncated_quotient_and_logs (SimpleCalculator.ctor 0) (-7) 2
    (fun _ => []) (by decide) (by decide) (by decide) (by decide)
  ⟨h.1, h.2.2.1⟩

/-- C1 (the code at the failing input): `INT_MIN` and `-1` are 32-bit values
and the divisor is not zero, so the guard of `Divide` lets the call through;
the quotient truncated toward zero is `2147483648`, not a 32-bit value;
`Divide(INT_MIN, -1)` returns nothing, the process being stopped by `SIGFPE`,
and the bound history gains no entry. -/
theorem Divide_INT_MIN_by_minus_one_faults :
    isInt32 (-2147483648) ∧ isInt32 (-1) ∧ (-1 : Int) ≠ 0
    ∧ Int.tdiv (-2147483648) (-1) = 2147483648
    ∧ ¬ isInt32 (Int.tdiv (-2147483648) (-1))
    ∧ ((SimpleCalculator.ctor 0).Divide (-2147483648) (-1) (fun _ => [])).1
        = Except.error Failure.sigfpe
    ∧ ((SimpleCalculator.ctor 0).Divide (-2147483648) (-1) (fun _ => [])).2 0 = [] :=
  ⟨by decide, by decide, by decide, by decide, by decide,
   congrArg Prod.fst (Divide_of_fault (SimpleCalculator.ctor 0) (fun _ => [])),
   congrFun (congrArg Prod.snd (Divide_of_fault (SimpleCalculator.ctor 0) (fun _ => []))) 0⟩

/-- What `Divide` throws: for every 32-bit `a`, `Divide(a,0)` throws
`std::invalid_argument` and leaves every history, the bound one included, as
it was; and whenever `Divide(a,b)` throws an exception, `b` is `0` and the
exception is `invalid_argument`. -/
theorem Divide_throws_exactly_on_zero_divisor
    (self : SimpleCalculator) (σ : Heap) :
    (∀ a : Int, isInt32 a →
        self.Divide a 0 σ
          = (Except.error (Failure.thrown StdException.invalid_argument), σ))
    ∧ (∀ (a b : Int) (e : StdException), isInt32 a → isInt32 b →
        (self.Divide a b σ).1 = Except.error (Failure.thrown e) →
          b = 0 ∧ e = StdException.invalid_argument) := by
  constructor
  · intro a _
    exact Divide_of_zero self a σ
  · intro a b e _ _ h
    by_cases hb : b = 0
    · subst hb
      rw [Divide_of_zero] at h
      exact ⟨rfl, (Failure.thrown.inj (Except.error.inj h)).symm⟩
    · by_cases hne : a = INT_MIN ∧ b = -1
      · obtain ⟨ha, hb1⟩ := hne
        subst ha hb1
        rw [Divide_of_fault] at h
        cases h
      · rw [Divide_of_ne_zero self a b σ hb hne] at h
        cases h

/-- An instance of the previous fact: `Divide(10, 0)` on the history
`["2 + 2 = 4"]` throws and the history is unchanged. -/
theorem Divide_throws_exactly_on_zero_divisor_witness :
    ((SimpleCalculator.ctor 0).Divide 10 0 (fun _ => ["2 + 2 = 4"])).1
        = Except.error (Failure.thrown StdException.invalid_argument)
    ∧ ((SimpleCalculator.ctor 0).Divide 10 0 (fun _ => ["2 + 2 = 4"])).2 0 = ["2 + 2 = 4"]
    ∧ ((0 : Int) = 0 ∧ StdException.invalid_argument = StdException.invalid_argument) :=
  have h := Divide_throws_exactly_on_zero_divisor (SimpleCalculator.ctor 0)
    (fun _ => ["2 + 2 = 4"])
  ⟨congrArg Prod.fst (h.1 10 (by decide)),
   congrFun (congrArg Prod.snd (h.1 10 (by decide))) 0,
   h.2 10 0 StdException.invalid_argument (by decide) (by decide) rfl⟩

/-- C2 (the code at the failing input): in `Divide(-2147483648, -1)` the
divisor is not zero, yet the call fails: it returns no value, whatever the
value, and what ends it is not the `invalid_argument` exception of the zero
guard but the fault of the division; the history is left as it was. -/
theorem Divide_fails_with_a_nonzero_divisor :
    (-1 : Int) ≠ 0
    ∧ (∀ v : Int,
        ((SimpleCalculator.ctor 0).Divide (-2147483648) (-1) (fun _ => ["2 + 2 = 4"])).1
          ≠ Except.ok v)
    ∧ ((SimpleCalculator.ctor 0).Divide (-2147483648) (-1) (fun _ => ["2 + 2 = 4"])).1
        ≠ Except.error (Failure.thrown StdException.invalid_argument)
    ∧ ((SimpleCalculator.ctor 0).Divide (-2147483648) (-1) (fun _ => ["2 + 2 = 4"])).2 0
        = ["2 + 2 = 4"] := by
  have hD := Divide_of_fault (SimpleCalculator.ctor 0) (fun _ => ["2 + 2 = 4"])
  have h1 : ((SimpleCalculator.ctor 0).Divide (-2147483648) (-1)
      (fun _ => ["2 + 2 = 4"])).1 = Except.error Failure.sigfpe := congrArg Prod.fst hD
  refine ⟨by decide, ?_, ?_, congrFun (congrArg Prod.snd hD) 0⟩
  · intro v h
    rw [h1] at h
    cases h
  · intro h
    rw [h1] at h
    cases Except.error.inj h

/-! ## Addition, subtraction, multiplication -/

/-- C3: for 32-bit `a`, `b`, `Add(a,b)` does not throw; the value `r` it
returns is the 32-bit value congruent to `a + b` modulo `2^32` (so it is
`a + b` whenever that fits); the bound history gains exactly the entry
`"<a> + <b> = <r>"` at its end and no other history changes. -/
theorem Add_returns_wrapped_sum_and_logs
    (self : SimpleCalculator) (a b : Int) (σ : Heap)
    (_ha : isInt32 a) (_hb : isInt32 b) :
    ∃ r : Int, (self.Add a b σ).1 = Except.ok r
      ∧ isInt32 r ∧ (r - (a + b)) % 4294967296 = 0
      ∧ (isInt32 (a + b) → r = a + b)
      ∧ (self.Add a b σ).2 self.m_history
          = σ self.m_history
              ++ [intToDecimal a ++ " + " ++ intToDecimal b ++ " = " ++ intToDecimal r]
      ∧ ∀ m, m ≠ self.m_history → (self.Add a b σ).2 m = σ m := by
  refine ⟨wrap32 (a + b), rfl, wrap32_isInt32 _, wrap32_congr _,
    fun h => wrap32_of_isInt32 _ h, ?_, ?_⟩
  · exact LogOperation_bound self a b _ "+" σ
  · intro m hm
    exact LogOperation_other self a b _ "+" σ m hm

/-- Witness for C3: `Add(2, 2)` on an empty history. -/
theorem Add_returns_wrapped_sum_and_logs_witness :
    ((SimpleCalculator.ctor 0).Add 2 2 (fun _ => [])).1 = Except.ok 4
    ∧ ((SimpleCalculator.ctor 0).Add 2 2 (fun _ => [])).2 0 = ["2 + 2 = 4"] := by
  obtain ⟨r, h1, _, _, h4, h5, _⟩ :=
    (Add_returns_wrapped_sum_and_logs (SimpleCalculator.ctor 0) 2 2
      (fun _ => []) (by decide) (by decide))
  have hr : r = 4 := h4 (by decide)
  subst hr
  exact ⟨h1, h5⟩

/-- C4: for 32-bit `a`, `b`, `Subtract(a,b)` does not throw; the value `r` it
returns is the 32-bit value congruent to `a - b` modulo `2^32`; the bound
history gains exactly the entry `"<a> - <b> = <r>"` at its end, a negative `b`
being written with its own minus sign, and no other history changes. -/
theorem Subtract_returns_wrapped_difference_and_logs
    (self : SimpleCalculator) (a b : Int) (σ : Heap)
    (_ha : isInt32 a) (_hb : isInt32 b) :
    (∃ r : Int, (self.Subtract a b σ).1 = Except.ok r
      ∧ isInt32 r ∧ (r - (a - b)) % 4294967296 = 0
      ∧ (isInt32 (a - b) → r = a - b)
      ∧ (self.Subtract a b σ).2 self.m_history
          = σ self.m_history
              ++ [intToDecimal a ++ " - " ++ intToDecimal b ++ " = " ++ intToDecimal r]
      ∧ ∀ m, m ≠ self.m_history → (self.Subtract a b σ).2 m = σ m)
    ∧ (b < 0 → ∃ n : Nat, b = -(n : Int) ∧ intToDecimal b = "-" ++ natToDecimal n) := by
  refine ⟨⟨wrap32 (a - b), rfl, wrap32_isInt32 _, wrap32_congr _,
    fun h => wrap32_of_isInt32 _ h, ?_, ?_⟩, ?_⟩
  · exact LogOperation_bound self a b _ "-" σ
  · intro m hm
    exact LogOperation_other self a b _ "-" σ m hm
  · intro hneg
    cases b with
    | ofNat n => exact absurd hneg (by simp)
    | negSucc n => exact ⟨n + 1, rfl, rfl⟩

/-- Witness for C4: `Subtract(5, -3)` on an empty history returns `8` and logs
`"5 - -3 = 8"`. -/
theorem Subtract_returns_wrapped_difference_and_logs_witness :
    ((SimpleCalculator.ctor 0).Subtract 5 (-3) (fun _ => [])).1 = Except.ok 8
    ∧ ((SimpleCalculator.ctor 0).Subtract 5 (-3) (fun _ => [])).2 0 = ["5 - -3 = 8"] := by
  obtain ⟨r, h1, _, _, h4, h5, _⟩ :=
    (Subtract_returns_wrapped_difference_and_logs (SimpleCalculator.ctor 0) 5 (-3)
      (fun _ => []) (by decide) (by decide)).1
  have hr : r = 8 := h4 (by decide)
  subst hr
  exact ⟨h1, h5⟩

/-- C5: for 32-bit `a`, `b`, `Multiply(a,b)` does not throw; the value `r` it
returns is the 32-bit value congruent to `a * b` modulo `2^32`; the bound
history gains exactly the entry `"<a> * <b> = <r>"` at its end and no other
history changes. -/
theorem Multiply_returns_wrapped_product_and_logs
    (self : SimpleCalculator) (a b : Int) (σ : Heap)
    (_ha : isInt32 a) (_hb : isInt32 b) :
    ∃ r : Int, (self.Multiply a b σ).1 = Except.ok r
      ∧ isInt32 r ∧ (r - a * b) % 4294967296 = 0
      ∧ (isInt32 (a * b) → r = a * b)
      ∧ (self.Multiply a b σ).2 self.m_history
          = σ self.m_history
              ++ [intToDecimal a ++ " * " ++ intToDecimal b ++ " = " ++ intToDecimal r]
      ∧ ∀ m, m ≠ self.m_history → (self.Multiply a b σ).2 m = σ m := by
  refine ⟨wrap32 (a * b), rfl, wrap32_isInt32 _, wrap32_congr _,
    fun h => wrap32_of_isInt32 _ h, ?_, ?_⟩
  · exact LogOperation_bound self a b _ "*" σ
  · intro m hm
    exact LogOperation_other self a b _ "*" σ m hm

/-- Witness for C5: `Multiply(-4, -3)` on an empty history returns `12` and
logs `"-4 * -3 = 12"`. -/
theorem Multiply_returns_wrapped_product_and_logs_witness :
    ((SimpleCalculator.ctor 0).Multiply (-4) (-3) (fun _ => [])).1 = Except.ok 12
    ∧ ((SimpleCalculator.ctor 0).Multiply (-4) (-3) (fun _ => [])).2 0 = ["-4 * -3 = 12"] := by
  obtain ⟨r, h1, _, _, h4, h5, _⟩ :=
    (Multiply_returns_wrapped_product_and_logs (SimpleCalculator.ctor 0) (-4) (-3)
      (fun _ => []) (by decide) (by decide))
  have hr : r = 12 := h4 (by decide)
  subst hr
  exact ⟨h1, h5⟩

/-! ## One entry per successful call -/

/-- C10: whichever of `Add`, `Subtract`, `Multiply`, `Divide` is called on
32-bit arguments, if the call returns a value then the history the calculator
is bound to is afterwards the old history followed by one new entry: its
length has grown by exactly 1 and every earlier entry is at its old position
with its old value. -/
theorem successful_call_appends_exactly_one_entry
    (self : SimpleCalculator) (a b : Int) (σ : Heap)
    (_ha : isInt32 a) (_hb : isInt32 b)
    (method : SimpleCalculator → Int → Int → Heap → Except Failure Int × Heap)
    (hmethod : method = SimpleCalculator.Add ∨ method = SimpleCalculator.Subtract
      ∨ method = SimpleCalculator.Multiply ∨ method = SimpleCalculator.Divide)
    (r : Int) (hok : (method self a b σ).1 = Except.ok r) :
    (∃ e : String, (method self a b σ).2 self.m_history = σ self.m_history ++ [e])
    ∧ ((method self a b σ).2 self.m_history).length = (σ self.m_history).length + 1
    ∧ ∀ i, i < (σ self.m_history).length →
        ((method self a b σ).2 self.m_history)[i]? = (σ self.m_history)[i]? := by
  have key : ∃ e : String, (method self a b σ).2 self.m_history = σ self.m_history ++ [e] := by
    rcases hmethod with h | h | h | h
    · subst h
      exact ⟨_, LogOperation_bound self a b _ "+" σ⟩
    · subst h
      exact ⟨_, LogOperation_bound self a b _ "-" σ⟩
    · subst h
      exact ⟨_, LogOperation_bound self a b _ "*" σ⟩
    · subst h
      by_cases hb0 : b = 0
      · subst hb0
        rw [Divide_of_zero] at hok
        cases hok
      · by_cases hne : a = INT_MIN ∧ b = -1
        · obtain ⟨ha1, hb1⟩ := hne
          subst ha1 hb1
          rw [Divide_of_fault] at hok
          cases hok
        · rw [Divide_of_ne_zero self a b σ hb0 hne]
          exact ⟨_, LogOperation_bound self a b _ "/" σ⟩
  obtain ⟨e, he⟩ := key
  exact ⟨⟨e, he⟩, appended_last _ _ e he⟩

/-- Witness for C10: `Divide(7, 2)` on the history `["2 + 2 = 4"]` returns `3`
and the history becomes `["2 + 2 = 4", "7 / 2 = 3"]`. -/
theorem successful_call_appends_exactly_one_entry_witness :
    ((SimpleCalculator.ctor 0).Divide 7 2 (fun _ => ["2 + 2 = 4"])).2 0
        = ["2 + 2 = 4", "7 / 2 = 3"]
    ∧ (((SimpleCalculator.ctor 0).Divide 7 2 (fun _ => ["2 + 2 = 4"])).2 0).length = 1 + 1
    ∧ ∀ i, i < 1 →
        (((SimpleCalculator.ctor 0).Divide 7 2 (fun _ => ["2 + 2 = 4"])).2 0)[i]?
          = ["2 + 2 = 4"][i]? :=
  have h := successful_call_appends_exactly_one_entry (SimpleCalculator.ctor 0) 7 2
    (fun _ => ["2 + 2 = 4"]) (by decide) (by decide) SimpleCalculator.Divide
    (Or.inr (Or.inr (Or.inr rfl))) 3 rfl
  ⟨by decide, h.2.1, h.2.2⟩

/-! ## Behaviour that the repository's tests reject -/

/-- C6 (the code at the failing input): a calculator constructed on the
history at address 0, after `SetHistory` with the history at address 1, is
still bound to address 0; `Add(2, 2)` then puts `"2 + 2 = 4"` into history 0
and leaves history 1 empty. -/
theorem SetHistory_then_Add_logs_to_the_first_history :
    ((SimpleCalculator.ctor 0).SetHistory 1 (fun _ => [])).1 = SimpleCalculator.ctor 0
    ∧ ((((SimpleCalculator.ctor 0).SetHistory 1 (fun _ => [])).1).Add 2 2
          ((SimpleCalculator.ctor 0).SetHistory 1 (fun _ => [])).2).2 0 = ["2 + 2 = 4"]
    ∧ ((((SimpleCalculator.ctor 0).SetHistory 1 (fun _ => [])).1).Add 2 2
          ((SimpleCalculator.ctor 0).SetHistory 1 (fun _ => [])).2).2 1 = [] := by
  decide

/-- C7 (the code at the failing input): `Add(2147483647, 1)`, whose exact sum
is not a 32-bit value, throws nothing: it returns `-2147483648` and logs the
call. -/
theorem Add_INT_MAX_and_one_returns_a_value :
    ¬ isInt32 (2147483647 + 1)
    ∧ ((SimpleCalculator.ctor 0).Add 2147483647 1 (fun _ => [])).1
        = Except.ok (-2147483648)
    ∧ ((SimpleCalculator.ctor 0).Add 2147483647 1 (fun _ => [])).2 0
        = ["2147483647 + 1 = -2147483648"] :=
  ⟨by decide, congrArg Except.ok (by decide), by decide⟩

/-- C8 (the code at the failing input): `Subtract(-2147483648, 1)`, whose exact
difference is not a 32-bit value, throws nothing: it returns `2147483647` and
logs the call. -/
theorem Subtract_INT_MIN_and_one_returns_a_value :
    ¬ isInt32 (-2147483648 - 1)
    ∧ ((SimpleCalculator.ctor 0).Subtract (-2147483648) 1 (fun _ => [])).1
        = Except.ok 2147483647
    ∧ ((SimpleCalculator.ctor 0).Subtract (-2147483648) 1 (fun _ => [])).2 0
        = ["-2147483648 - 1 = 2147483647"] :=
  ⟨by decide, congrArg Except.ok (by decide), by decide⟩

/-- C9 (the code at the failing input): `Multiply(2147483647, 2)`, whose exact
product is not a 32-bit value, throws nothing: it returns `-2` and logs the
call. -/
theorem Multiply_INT_MAX_and_two_returns_a_value :
    ¬ isInt32 (2147483647 * 2)
    ∧ ((SimpleCalculator.ctor 0).Multiply 2147483647 2 (fun _ => [])).1
        = Except.ok (-2)
    ∧ ((SimpleCalculator.ctor 0).Multiply 2147483647 2 (fun _ => [])).2 0
        = ["2147483647 * 2 = -2"] :=
  ⟨by decide, congrArg Except.ok (by decide), by decide⟩

/-! ## The history store -/

theorem lastEntries_length (entries : History) (n : Nat) :
    (lastEntries entries n).length = min n entries.length := by
  unfold lastEntries
  rw [List.length_drop]
  omega

theorem lastEntries_of_length_le (entries : History) (n : Nat) (h : entries.length ≤ n) :
    lastEntries entries n = entries := by
  unfold lastEntries
  rw [Nat.min_eq_right h, Nat.sub_self, List.drop_zero]

theorem lastEntries_append_singleton (entries : History) (e : String) :
    lastEntries (entries ++ [e]) 1 = [e] := by
  unfold lastEntries
  have h : (entries ++ [e]).length - min 1 (entries ++ [e]).length = entries.length := by
    rw [List.length_append, List.length_singleton]
    omega
  rw [h, List.drop_left]

theorem AddEntry_same (σ : Heap) (r : Nat) (e : String) : AddEntry σ r e r = σ r ++ [e] := by
  unfold AddEntry
  rw [Function.update_same]

theorem AddEntry_other (σ : Heap) (r m : Nat) (e : String) (hm : m ≠ r) :
    AddEntry σ r e m = σ m := by
  unfold AddEntry
  exact Function.update_noteq hm _ σ

theorem AddEntries_same (r : Nat) (entries : List String) :
    ∀ σ : Heap, AddEntries σ r entries r = σ r ++ entries := by
  induction entries with
  | nil => intro σ; simp [AddEntries]
  | cons e es ih =>
    intro σ
    have hstep : AddEntries σ r (e :: es) = AddEntries (AddEntry σ r e) r es := rfl
    rw [hstep, ih, AddEntry_same, List.append_assoc, List.singleton_append]

/-- C11: `GetLastOperations(n)` on a history holding `k` entries returns a
value, with exactly `min(n,k)` entries; the returned list is a suffix of the
history, its entry `i` being the history's entry `k - min(n,k) + i`, so the
entries are the last `min(n,k)` in their original order.  On `[e1,e2,e3]` a
count of 2 gives `[e2,e3]`. -/
theorem GetLastOperations_returns_the_last_entries (σ : Heap) (r : Nat) (n : Nat) :
    (GetLastOperations σ r n).1 = Except.ok (lastEntries (σ r) n)
    ∧ (lastEntries (σ r) n).length = min n (σ r).length
    ∧ lastEntries (σ r) n <:+ σ r
    ∧ (∀ i, i < min n (σ r).length →
        (lastEntries (σ r) n)[i]? = (σ r)[(σ r).length - min n (σ r).length + i]?)
    ∧ (∀ e1 e2 e3 : String,
        (GetLastOperations (fun _ => [e1, e2, e3]) r 2).1 = Except.ok [e2, e3]) := by
  refine ⟨rfl, lastEntries_length _ _, ?_, ?_, ?_⟩
  · unfold lastEntries
    exact List.drop_suffix _ _
  · intro i _
    unfold lastEntries
    exact List.getElem?_drop _ _ _
  · intro e1 e2 e3
    rfl

/-- Witness for C11: three recorded entries, a count of 2. -/
theorem GetLastOperations_returns_the_last_entries_witness :
    (GetLastOperations (fun _ => ["1 + 1 = 2", "2 + 2 = 4", "3 + 3 = 6"]) 0 2).1
        = Except.ok ["2 + 2 = 4", "3 + 3 = 6"]
    ∧ (lastEntries ["1 + 1 = 2", "2 + 2 = 4", "3 + 3 = 6"] 2)[0]?
        = ["1 + 1 = 2", "2 + 2 = 4", "3 + 3 = 6"][3 - min 2 3 + 0]? :=
  have h := GetLastOperations_returns_the_last_entries
    (fun _ => ["1 + 1 = 2", "2 + 2 = 4", "3 + 3 = 6"]) 0 2
  ⟨h.1, h.2.2.2.1 0 (by decide)⟩

/-- C13: `GetLastOperations(0)` returns the empty list on any history, and on
an empty history every count returns the empty list; both calls return a value
and leave all histories as they were. -/
theorem GetLastOperations_empty_results (σ : Heap) (r : Nat) (n : Nat) :
    GetLastOperations σ r 0 = (Except.ok [], σ)
    ∧ (σ r = [] → GetLastOperations σ r n = (Except.ok [], σ)) := by
  constructor
  · unfold GetLastOperations lastEntries
    simp
  · intro h
    unfold GetLastOperations lastEntries
    rw [h, List.drop_nil]

/-- Witness for C13: a count of 1 on an empty history, a count of 0 on a
history with one entry. -/
theorem GetLastOperations_empty_results_witness :
    (GetLastOperations (fun _ => []) 0 1).1 = Except.ok []
    ∧ (GetLastOperations (fun _ => ["1 + 1 = 2"]) 0 0).1 = Except.ok [] :=
  ⟨congrArg Prod.fst ((GetLastOperations_empty_results (fun _ => []) 0 1).2 rfl),
   congrArg Prod.fst (GetLastOperations_empty_results (fun _ => ["1 + 1 = 2"]) 0 0).1⟩

/-- C14: `AddEntry(e)` puts `e`, whatever string it is, at the end of the
history and changes no other history, so `GetLastOperations(1)` then returns
`[e]`; a run of `AddEntry` calls adds the entries in call order, and after `n`
of them on an empty history `GetLastOperations(n)` returns all `n` entries in
the order they were recorded. -/
theorem AddEntry_appends_and_keeps_everything
    (σ : Heap) (r : Nat) (e : String) (entries : List String) :
    AddEntry σ r e r = σ r ++ [e]
    ∧ (∀ m, m ≠ r → AddEntry σ r e m = σ m)
    ∧ (GetLastOperations (AddEntry σ r e) r 1).1 = Except.ok [e]
    ∧ AddEntries σ r entries r = σ r ++ entries
    ∧ (σ r = [] →
        (GetLastOperations (AddEntries σ r entries) r entries.length).1 = Except.ok entries) := by
  refine ⟨AddEntry_same σ r e, fun m hm => AddEntry_other σ r m e hm, ?_,
    AddEntries_same r entries σ, ?_⟩
  · unfold GetLastOperations
    rw [AddEntry_same, lastEntries_append_singleton]
  · intro h
    unfold GetLastOperations
    rw [AddEntries_same, h, List.nil_append, lastEntries_of_length_le _ _ (Nat.le_refl _)]

/-- Witness for C14: two entries and then the empty string recorded on an
empty history are all returned, in order. -/
theorem AddEntry_appends_and_keeps_everything_witness :
    (GetLastOperations (AddEntries (fun _ => []) 0 ["2 + 2 = 4", "5 - 3 = 2", ""]) 0 3).1
        = Except.ok ["2 + 2 = 4", "5 - 3 = 2", ""]
    ∧ (GetLastOperations (AddEntry (fun _ => []) 0 "") 0 1).1 = Except.ok [""] :=
  ⟨(AddEntry_appends_and_keeps_everything (fun _ => []) 0 ""
      ["2 + 2 = 4", "5 - 3 = 2", ""]).2.2.2.2 rfl,
   (AddEntry_appends_and_keeps_everything (fun _ => []) 0 "" []).2.2.1⟩

/-! ## Entries logged by a sequence of calls -/

theorem apply_ok (self : SimpleCalculator) (o : Operation) (σ : Heap) (v : Int)
    (h : (self.apply o σ).1 = Except.ok v) :
    (self.apply o σ).2
      = AddEntry σ self.m_history (formatOperation o.lhs o.symbol o.rhs v) := by
  cases o with
  | Add a b =>
    have hv : wrap32 (a + b) = v := Except.ok.inj h
    subst hv
    rfl
  | Subtract a b =>
    have hv : wrap32 (a - b) = v := Except.ok.inj h
    subst hv
    rfl
  | Multiply a b =>
    have hv : wrap32 (a * b) = v := Except.ok.inj h
    subst hv
    rfl
  | Divide a b =>
    have happ : self.apply (Operation.Divide a b) σ = self.Divide a b σ := rfl
    rw [happ] at h ⊢
    by_cases hb : b = 0
    · subst hb
      rw [Divide_of_zero] at h
      cases h
    · by_cases hne : a = INT_MIN ∧ b = -1
      · obtain ⟨ha1, hb1⟩ := hne
        subst ha1 hb1
        rw [Divide_of_fault] at h
        cases h
      · rw [Divide_of_ne_zero self a b σ hb hne] at h ⊢
        have hv : wrap32 (Int.tdiv a b) = v := Except.ok.inj h
        subst hv
        rfl

theorem apply_heap_cases (self : SimpleCalculator) (o : Operation) (σ : Heap) :
    (self.apply o σ).2 = σ
    ∨ ∃ e, (self.apply o σ).2 = AddEntry σ self.m_history e := by
  cases o with
  | Add a b => exact Or.inr ⟨_, rfl⟩
  | Subtract a b => exact Or.inr ⟨_, rfl⟩
  | Multiply a b => exact Or.inr ⟨_, rfl⟩
  | Divide a b =>
    have happ : self.apply (Operation.Divide a b) σ = self.Divide a b σ := rfl
    rw [happ]
    by_cases hb : b = 0
    · left
      subst hb
      rw [Divide_of_zero]
    · by_cases hne : a = INT_MIN ∧ b = -1
      · left
        obtain ⟨ha1, hb1⟩ := hne
        subst ha1 hb1
        rw [Divide_of_fault]
      · right
        rw [Divide_of_ne_zero self a b σ hb hne]
        exact ⟨formatOperation a "/" b (wrap32 (Int.tdiv a b)), rfl⟩

theorem AddEntry_extends (σ : Heap) (r m : Nat) (e : String) : σ m <+: AddEntry σ r e m := by
  by_cases hm : m = r
  · subst hm
    rw [AddEntry_same]
    exact List.prefix_append _ _
  · rw [AddEntry_other σ r m e hm]

theorem call_fst (self : SimpleCalculator) (c : Call) (σ : Heap) : (self.call c σ).1 = self := by
  cases c with
  | op o => rfl
  | SetHistory history =>
    show (self.SetHistory history σ).1 = self
    rw [SetHistory_eq]

theorem call_extends (self : SimpleCalculator) (c : Call) (σ : Heap) (m : Nat) :
    σ m <+: (self.call c σ).2 m := by
  cases c with
  | op o =>
    show σ m <+: (self.apply o σ).2 m
    rcases apply_heap_cases self o σ with h | ⟨e, h⟩
    · rw [h]
    · rw [h]
      exact AddEntry_extends σ _ m e
  | SetHistory history =>
    show σ m <+: (self.SetHistory history σ).2 m
    rw [SetHistory_eq]

theorem callAll_extends (cs : List Call) :
    ∀ (self : SimpleCalculator) (σ : Heap) (m : Nat), σ m <+: (self.callAll cs σ).2 m := by
  induction cs with
  | nil =>
    intro self σ m
    exact List.prefix_refl _
  | cons c cs ih =>
    intro self σ m
    have hstep : self.callAll (c :: cs) σ
        = (self.call c σ).1.callAll cs (self.call c σ).2 := rfl
    rw [hstep]
    exact List.IsPrefix.trans (call_extends self c σ m) (ih _ _ m)

theorem leading_getElem? (l₁ l₂ : List String) (h : l₁ <+: l₂) (i : Nat) (hi : i < l₁.length) :
    l₂[i]? = l₁[i]? := by
  obtain ⟨t, rfl⟩ := h
  exact List.getElem?_append_left hi

theorem applyAll_ok (self : SimpleCalculator) (ops : List Operation) :
    ∀ (σ : Heap) (vs : List Int), (self.applyAll ops σ).1 = vs.map Except.ok →
      vs.length = ops.length
      ∧ (self.applyAll ops σ).2 self.m_history
          = σ self.m_history
              ++ List.zipWith (fun o v => formatOperation o.lhs o.symbol o.rhs v) ops vs := by
  induction ops with
  | nil =>
    intro σ vs h
    cases vs with
    | nil => exact ⟨rfl, by simp [SimpleCalculator.applyAll]⟩
    | cons v vs => cases h
  | cons o os ih =>
    intro σ vs h
    cases vs with
    | nil => cases h
    | cons v vs =>
      have h1 : (self.apply o σ).1 = Except.ok v := (List.cons.inj h).1
      have h2 : (self.applyAll os (self.apply o σ).2).1 = vs.map Except.ok :=
        (List.cons.inj h).2
      obtain ⟨hlen, hheap⟩ := ih _ vs h2
      refine ⟨by simp [hlen], ?_⟩
      show (self.applyAll os (self.apply o σ).2).2 self.m_history = _
      rw [hheap, apply_ok self o σ v h1, AddEntry_same]
      simp

/-- C15: `SetHistory(h2)` on a calculator bound to `h1` appends nothing: every
history, `h1` and `h2` among them, has the same content after the call as
before; and whatever calls follow, the entries that were in `h1` before
`SetHistory` remain the leading entries of `h1`, each at its old position with
its old value. -/
theorem SetHistory_is_not_retroactive
    (self : SimpleCalculator) (h2 : Nat) (σ : Heap) (later : List Call) :
    (self.SetHistory h2 σ).2 = σ
    ∧ (self.SetHistory h2 σ).2 self.m_history = σ self.m_history
    ∧ (self.SetHistory h2 σ).2 h2 = σ h2
    ∧ σ self.m_history
        <+: ((self.SetHistory h2 σ).1.callAll later (self.SetHistory h2 σ).2).2 self.m_history
    ∧ ∀ i, i < (σ self.m_history).length →
        (((self.SetHistory h2 σ).1.callAll later (self.SetHistory h2 σ).2).2 self.m_history)[i]?
          = (σ self.m_history)[i]? := by
  have hS : self.SetHistory h2 σ = (self, σ) := SetHistory_eq self h2 σ
  rw [hS]
  have hp := callAll_extends later self σ self.m_history
  exact ⟨rfl, rfl, rfl, hp, fun i hi => leading_getElem? _ _ hp i hi⟩

/-- Witness for C15: a history holding `"2 + 2 = 4"`, then `SetHistory` and two
more calls; the old entry is still first. -/
theorem SetHistory_is_not_retroactive_witness :
    ((SimpleCalculator.ctor 0).SetHistory 1 (Function.update (fun _ => []) 0 ["2 + 2 = 4"])).2 0
        = ["2 + 2 = 4"]
    ∧ ((SimpleCalculator.ctor 0).SetHistory 1 (Function.update (fun _ => []) 0 ["2 + 2 = 4"])).2 1
        = []
    ∧ ((((SimpleCalculator.ctor 0).SetHistory 1
            (Function.update (fun _ => []) 0 ["2 + 2 = 4"])).1.callAll
          [Call.op (Operation.Add 3 3), Call.SetHistory 2, Call.op (Operation.Divide 1 0)]
          ((SimpleCalculator.ctor 0).SetHistory 1
            (Function.update (fun _ => []) 0 ["2 + 2 = 4"])).2).2 0)[0]?
        = some "2 + 2 = 4" :=
  have h := SetHistory_is_not_retroactive (SimpleCalculator.ctor 0) 1
    (Function.update (fun _ => []) 0 ["2 + 2 = 4"])
    [Call.op (Operation.Add 3 3), Call.SetHistory 2, Call.op (Operation.Divide 1 0)]
  ⟨h.2.1, h.2.2.1, h.2.2.2.2 0 (by decide)⟩

/-- C16: when a caller makes a finite sequence of arithmetic calls with 32-bit
arguments on one calculator whose bound history starts empty, and every call
returns a value, the history afterwards holds exactly one entry per call, in
call order: entry `i` is the text `"<a> <op> <b> = <v>"` of call `i` and the
value `v` it returned. -/
theorem successful_calls_log_one_entry_each_in_order
    (self : SimpleCalculator) (ops : List Operation) (σ : Heap) (vs : List Int)
    (_hargs : ∀ o ∈ ops, isInt32 o.lhs ∧ isInt32 o.rhs)
    (hempty : σ self.m_history = [])
    (hok : (self.applyAll ops σ).1 = vs.map Except.ok) :
    vs.length = ops.length
    ∧ ((self.applyAll ops σ).2 self.m_history).length = ops.length
    ∧ (self.applyAll ops σ).2 self.m_history
        = List.zipWith (fun o v => formatOperation o.lhs o.symbol o.rhs v) ops vs := by
  obtain ⟨hlen, hheap⟩ := applyAll_ok self ops σ vs hok
  rw [hempty, List.nil_append] at hheap
  refine ⟨hlen, ?_, hheap⟩
  rw [hheap, List.length_zipWith, hlen, Nat.min_self]

/-- Witness for C16: `Add(2,3)`, `Subtract(10,4)`, `Multiply(5,2)` on an empty
history give `["2 + 3 = 5", "10 - 4 = 6", "5 * 2 = 10"]`. -/
theorem successful_calls_log_one_entry_each_in_order_witness :
    ((SimpleCalculator.ctor 0).applyAll
        [Operation.Add 2 3, Operation.Subtract 10 4, Operation.Multiply 5 2]
        (fun _ => [])).2 0
      = ["2 + 3 = 5", "10 - 4 = 6", "5 * 2 = 10"] :=
  (successful_calls_log_one_entry_each_in_order (SimpleCalculator.ctor 0)
    [Operation.Add 2 3, Operation.Subtract 10 4, Operation.Multiply 5 2]
    (fun _ => []) [5, 6, 10] (by decide) rfl rfl).2.2

/-! ## More on division -/

theorem tmod_spec (a b : Int) (hb : b ≠ 0) :
    (Int.tmod a b).natAbs < b.natAbs
    ∧ (Int.tmod a b = 0 ∨ (0 < Int.tmod a b ∧ 0 < a) ∨ (Int.tmod a b < 0 ∧ a < 0)) := by
  have hsum : Int.tmod a b + b * Int.tdiv a b = a := Int.tmod_add_tdiv a b
  by_cases ha : 0 ≤ a
  · have h0 : 0 ≤ Int.tmod a b := Int.tmod_nonneg b ha
    have hlt : Int.tmod a b < (b.natAbs : Int) := by
      by_cases hpos : 0 < b
      · have := Int.tmod_lt_of_pos a hpos
        omega
      · have h1 := Int.tmod_lt_of_pos a (show 0 < -b by omega)
        rw [Int.tmod_neg] at h1
        omega
    refine ⟨by omega, ?_⟩
    by_cases hz : Int.tmod a b = 0
    · exact Or.inl hz
    · right; left
      refine ⟨by omega, ?_⟩
      by_contra hcon
      have ha0 : a = 0 := by omega
      rw [ha0] at hz
      exact hz (by simp)
  · have hna : 0 ≤ -a := by omega
    have hneg : Int.tmod a b = -(Int.tmod (-a) b) := by
      rw [Int.tmod_def, Int.tmod_def, Int.neg_tdiv]
      ring
    have h0 : 0 ≤ Int.tmod (-a) b := Int.tmod_nonneg b hna
    have hlt : Int.tmod (-a) b < (b.natAbs : Int) := by
      by_cases hpos : 0 < b
      · have := Int.tmod_lt_of_pos (-a) hpos
        omega
      · have h1 := Int.tmod_lt_of_pos (-a) (show 0 < -b by omega)
        rw [Int.tmod_neg] at h1
        omega
    refine ⟨by omega, ?_⟩
    by_cases hz : Int.tmod a b = 0
    · exact Or.inl hz
    · right; right
      exact ⟨by omega, by omega⟩

/-- C17: for every 32-bit `a`, `INT_MAX` and `INT_MIN` included, `Divide(a,1)`
returns `a`, appends the entry `"<a> / 1 = <a>"` to the bound history and
changes no other history. -/
theorem Divide_by_one_returns_the_dividend
    (self : SimpleCalculator) (a : Int) (σ : Heap) (ha : isInt32 a) :
    (self.Divide a 1 σ).1 = Except.ok a
    ∧ (self.Divide a 1 σ).2 self.m_history
        = σ self.m_history ++ [intToDecimal a ++ " / 1 = " ++ intToDecimal a]
    ∧ ∀ m, m ≠ self.m_history → (self.Divide a 1 σ).2 m = σ m := by
  have hw : wrap32 (Int.tdiv a 1) = a := by
    rw [Int.tdiv_one]
    exact wrap32_of_isInt32 a ha
  rw [Divide_of_ne_zero self a 1 σ (by decide) (fun h => absurd h.2 (by decide)), hw]
  refine ⟨rfl, ?_, fun m hm => LogOperation_other self a 1 a "/" σ m hm⟩
  have h1 : intToDecimal 1 = "1" := by decide
  have h2 : (" / 1 = " : String) = " " ++ "/" ++ " " ++ "1" ++ " = " := by decide
  show self.LogOperation a "/" 1 a σ self.m_history = _
  rw [LogOperation_bound, h1, h2]
  simp only [String.append_assoc]

/-- Witness for C17: `Divide(-2147483648, 1)` returns `-2147483648` and logs
`"-2147483648 / 1 = -2147483648"`. -/
theorem Divide_by_one_returns_the_dividend_witness :
    ((SimpleCalculator.ctor 0).Divide (-2147483648) 1 (fun _ => [])).1
        = Except.ok (-2147483648)
    ∧ ((SimpleCalculator.ctor 0).Divide (-2147483648) 1 (fun _ => [])).2 0
        = ["-2147483648 / 1 = -2147483648"] :=
  have h := Divide_by_one_returns_the_dividend (SimpleCalculator.ctor 0) (-2147483648)
    (fun _ => []) (by decide)
  ⟨h.1, h.2.1⟩

/-- C18: for 32-bit `a`, `b` with `b ≠ 0`, the quotient truncated toward zero
fails to be a 32-bit value exactly when `(a,b) = (INT_MIN, -1)`, where it is
`2147483648`; for every other such pair `Divide(a,b)` returns that quotient
`q`, and `a = q*b + r` with `|r| < |b|` and `r` zero or of the sign of `a`. -/
theorem Divide_quotient_is_exact_except_INT_MIN_by_minus_one
    (self : SimpleCalculator) (a b : Int) (σ : Heap)
    (ha : isInt32 a) (_hb : isInt32 b) (hb0 : b ≠ 0) :
    (¬ isInt32 (Int.tdiv a b) ↔ (a = INT_MIN ∧ b = -1))
    ∧ Int.tdiv INT_MIN (-1) = 2147483648
    ∧ (¬ (a = INT_MIN ∧ b = -1) →
        ∃ q r : Int, (self.Divide a b σ).1 = Except.ok q
          ∧ q = Int.tdiv a b ∧ isInt32 q
          ∧ a = q * b + r
          ∧ r.natAbs < b.natAbs
          ∧ (r = 0 ∨ (0 < r ∧ 0 < a) ∨ (r < 0 ∧ a < 0))) := by
  refine ⟨⟨?_, ?_⟩, by decide, ?_⟩
  · intro h
    by_contra hne
    exact h (tdiv_isInt32 a b ha hb0 hne)
  · rintro ⟨rfl, rfl⟩
    decide
  · intro hne
    have hq : isInt32 (Int.tdiv a b) := tdiv_isInt32 a b ha hb0 hne
    have hr := tmod_spec a b hb0
    refine ⟨Int.tdiv a b, Int.tmod a b, ?_, rfl, hq, ?_, hr.1, hr.2⟩
    · rw [Divide_of_ne_zero self a b σ hb0 hne, wrap32_of_isInt32 _ hq]
    · have hsum : Int.tmod a b + b * Int.tdiv a b = a := Int.tmod_add_tdiv a b
      rw [Int.mul_comm]
      omega

/-- Witness for C18: `Divide(-7, 2)` returns `-3`, and `-7 = (-3)*2 + (-1)`. -/
theorem Divide_quotient_is_exact_except_INT_MIN_by_minus_one_witness :
    ∃ q r : Int, ((SimpleCalculator.ctor 0).Divide (-7) 2 (fun _ => [])).1 = Except.ok q
      ∧ q = -3 ∧ isInt32 q
      ∧ -7 = q * 2 + r
      ∧ r.natAbs < (2 : Int).natAbs
      ∧ (r = 0 ∨ (0 < r ∧ (0 : Int) < -7) ∨ (r < 0 ∧ (-7 : Int) < 0)) :=
  (Divide_quotient_is_exact_except_INT_MIN_by_minus_one (SimpleCalculator.ctor 0) (-7) 2
    (fun _ => []) (by decide) (by decide) (by decide)).2.2 (by decide)

/-! ## Wrap-around arithmetic -/

/-- C20: for all 32-bit `a`, `b`, `Add(a,b)` returns a value `s` and
`Subtract(s,b)`, called next, returns `a`, also when `a + b` is not a 32-bit
value. -/
theorem Subtract_undoes_Add
    (self : SimpleCalculator) (a b : Int) (σ : Heap)
    (ha : isInt32 a) (_hb : isInt32 b) :
    ∃ s : Int, (self.Add a b σ).1 = Except.ok s
      ∧ (self.Subtract s b (self.Add a b σ).2).1 = Except.ok a := by
  refine ⟨wrap32 (a + b), rfl, ?_⟩
  have h : wrap32 (wrap32 (a + b) - b) = a := by
    unfold isInt32 INT_MIN INT_MAX at ha
    unfold wrap32
    omega
  show Except.ok (wrap32 (wrap32 (a + b) - b)) = Except.ok a
  rw [h]

/-- Witness for C20: `Add(2147483647, 1)` returns `-2147483648`, and
`Subtract(-2147483648, 1)` returns `2147483647`. -/
theorem Subtract_undoes_Add_witness :
    ∃ s : Int, ((SimpleCalculator.ctor 0).Add 2147483647 1 (fun _ => [])).1 = Except.ok s
      ∧ ((SimpleCalculator.ctor 0).Subtract s 1
          ((SimpleCalculator.ctor 0).Add 2147483647 1 (fun _ => [])).2).1
            = Except.ok 2147483647 :=
  Subtract_undoes_Add (SimpleCalculator.ctor 0) 2147483647 1 (fun _ => [])
    (by decide) (by decide)

/-! ## The log format can be read back -/

theorem digitChar_ne (d : Nat) : digitChar d ≠ ' ' ∧ digitChar d ≠ '-' := by
  unfold digitChar
  split <;> decide

theorem digitValue_digitChar (d : Nat) (h : d < 10) : digitValue (digitChar d) = d := by
  interval_cases d <;> rfl

theorem natDigits_chars (fuel : Nat) :
    ∀ n c, c ∈ natDigits fuel n → c ≠ ' ' ∧ c ≠ '-' := by
  induction fuel with
  | zero =>
    intro n c hc
    simp [natDigits] at hc
  | succ fuel ih =>
    intro n c hc
    unfold natDigits at hc
    split at hc
    · rw [List.mem_singleton] at hc
      rw [hc]
      exact digitChar_ne n
    · rw [List.mem_append, List.mem_singleton] at hc
      rcases hc with hc | hc
      · exact ih _ c hc
      · rw [hc]
        exact digitChar_ne _

theorem digitsValue_append (cs : List Char) (c : Char) :
    digitsValue (cs ++ [c]) = 10 * digitsValue cs + digitValue c := by
  unfold digitsValue
  rw [List.foldl_append]
  rfl

theorem digitsValue_natDigits (fuel : Nat) :
    ∀ n, n < fuel → digitsValue (natDigits fuel n) = n := by
  induction fuel with
  | zero =>
    intro n hn
    omega
  | succ fuel ih =>
    intro n hn
    unfold natDigits
    split
    · rename_i hlt
      have h := digitsValue_append [] (digitChar n)
      rw [List.nil_append] at h
      have h0 : digitsValue [] = 0 := rfl
      rw [h, digitValue_digitChar n hlt, h0]
      omega
    · rename_i hge
      rw [digitsValue_append, ih (n / 10) (by omega), digitValue_digitChar _ (by omega)]
      omega

theorem natToDecimal_injective (m n : Nat)
    (h : natDigits (m + 1) m = natDigits (n + 1) n) : m = n := by
  have hm := digitsValue_natDigits (m + 1) m (by omega)
  have hn := digitsValue_natDigits (n + 1) n (by omega)
  rw [h] at hm
  omega

theorem intToDecimal_data_ofNat (n : Nat) :
    (intToDecimal (Int.ofNat n)).data = natDigits (n + 1) n := rfl

theorem intToDecimal_data_negSucc (n : Nat) :
    (intToDecimal (Int.negSucc n)).data = '-' :: natDigits (n + 1 + 1) (n + 1) := rfl

theorem natDigits_head_ne_minus (m : Nat) (t : List Char) :
    natDigits (m + 1) m ≠ '-' :: t := by
  intro h
  have hmem : '-' ∈ natDigits (m + 1) m := by
    rw [h]
    exact List.mem_cons_self _ _
  exact (natDigits_chars _ _ _ hmem).2 rfl

theorem intToDecimal_injective (a b : Int)
    (h : (intToDecimal a).data = (intToDecimal b).data) : a = b := by
  cases a with
  | ofNat m =>
    cases b with
    | ofNat n =>
      rw [intToDecimal_data_ofNat, intToDecimal_data_ofNat] at h
      rw [natToDecimal_injective m n h]
    | negSucc n =>
      rw [intToDecimal_data_ofNat, intToDecimal_data_negSucc] at h
      exact absurd h (natDigits_head_ne_minus m _)
  | negSucc m =>
    cases b with
    | ofNat n =>
      rw [intToDecimal_data_ofNat, intToDecimal_data_negSucc] at h
      exact absurd h.symm (natDigits_head_ne_minus n _)
    | negSucc n =>
      rw [intToDecimal_data_negSucc, intToDecimal_data_negSucc] at h
      have h2 := natToDecimal_injective (m + 1) (n + 1) (List.cons.inj h).2
      have h3 : m = n := by omega
      rw [h3]

theorem intToDecimal_no_space (a : Int) : ' ' ∉ (intToDecimal a).data := by
  intro h
  cases a with
  | ofNat n =>
    rw [intToDecimal_data_ofNat] at h
    exact (natDigits_chars _ _ _ h).1 rfl
  | negSucc n =>
    rw [intToDecimal_data_negSucc, List.mem_cons] at h
    rcases h with h | h
    · exact absurd h (by decide)
    · exact (natDigits_chars _ _ _ h).1 rfl

theorem split_at_first_space (l₁ : List Char) :
    ∀ (l₂ r₁ r₂ : List Char), ' ' ∉ l₁ → ' ' ∉ l₂ →
      l₁ ++ ' ' :: r₁ = l₂ ++ ' ' :: r₂ → l₁ = l₂ ∧ r₁ = r₂ := by
  induction l₁ with
  | nil =>
    intro l₂ r₁ r₂ _ h₂ h
    cases l₂ with
    | nil => exact ⟨rfl, (List.cons.inj h).2⟩
    | cons c t =>
      have hc : ' ' = c := (List.cons.inj h).1
      exact absurd (hc ▸ List.mem_cons_self _ _) h₂
  | cons c t ih =>
    intro l₂ r₁ r₂ h₁ h₂ h
    cases l₂ with
    | nil =>
      have hc : c = ' ' := (List.cons.inj h).1
      exact absurd (hc ▸ List.mem_cons_self _ _) h₁
    | cons d u =>
      have hcd : c = d := (List.cons.inj h).1
      have ht := ih u r₁ r₂ (fun hm => h₁ (List.mem_cons_of_mem _ hm))
        (fun hm => h₂ (List.mem_cons_of_mem _ hm)) (List.cons.inj h).2
      exact ⟨by rw [hcd, ht.1], ht.2⟩

theorem formatOperation_data (a b r : Int) (op : String) :
    (formatOperation a op b r).data
      = (intToDecimal a).data ++ ' ' :: (op.data ++ ' ' ::
          ((intToDecimal b).data ++ ' ' :: ('=' :: ' ' :: (intToDecimal r).data))) := by
  unfold formatOperation
  simp only [String.data_append, List.append_assoc]
  rfl

theorem operator_no_space (op : String)
    (h : op = "+" ∨ op = "-" ∨ op = "*" ∨ op = "/") : ' ' ∉ op.data := by
  rcases h with h | h | h | h <;> subst h <;> decide

theorem formatOperation_injective (a b r a₂ b₂ r₂ : Int) (op op₂ : String)
    (hop : op = "+" ∨ op = "-" ∨ op = "*" ∨ op = "/")
    (hop₂ : op₂ = "+" ∨ op₂ = "-" ∨ op₂ = "*" ∨ op₂ = "/")
    (h : formatOperation a op b r = formatOperation a₂ op₂ b₂ r₂) :
    a = a₂ ∧ op = op₂ ∧ b = b₂ ∧ r = r₂ := by
  have hd := congrArg String.data h
  rw [formatOperation_data, formatOperation_data] at hd
  obtain ⟨h1, hd⟩ := split_at_first_space _ _ _ _
    (intToDecimal_no_space a) (intToDecimal_no_space a₂) hd
  obtain ⟨h2, hd⟩ := split_at_first_space _ _ _ _
    (operator_no_space op hop) (operator_no_space op₂ hop₂) hd
  obtain ⟨h3, hd⟩ := split_at_first_space _ _ _ _
    (intToDecimal_no_space b) (intToDecimal_no_space b₂) hd
  have h4 : (intToDecimal r).data = (intToDecimal r₂).data :=
    (List.cons.inj (List.cons.inj hd).2).2
  exact ⟨intToDecimal_injective _ _ h1, String.ext h2,
    intToDecimal_injective _ _ h3, intToDecimal_injective _ _ h4⟩

/-- C19: for 32-bit `a`, `b`, `r`, `a'`, `b'`, `r'` and operators among `+`,
`-`, `*`, `/`, if `LogOperation(a,op,b,r)` and `LogOperation(a',op',b',r')`
put the same entry string into the history, then `a = a'`, `op = op'`,
`b = b'` and `r = r'`. -/
theorem LogOperation_entry_determines_its_arguments
    (self : SimpleCalculator) (σ : Heap)
    (a b r a₂ b₂ r₂ : Int) (op op₂ : String)
    (_ha : isInt32 a) (_hb : isInt32 b) (_hr : isInt32 r)
    (_ha₂ : isInt32 a₂) (_hb₂ : isInt32 b₂) (_hr₂ : isInt32 r₂)
    (hop : op = "+" ∨ op = "-" ∨ op = "*" ∨ op = "/")
    (hop₂ : op₂ = "+" ∨ op₂ = "-" ∨ op₂ = "*" ∨ op₂ = "/")
    (h : self.LogOperation a op b r σ self.m_history
          = self.LogOperation a₂ op₂ b₂ r₂ σ self.m_history) :
    formatOperation a op b r = formatOperation a₂ op₂ b₂ r₂
    ∧ a = a₂ ∧ op = op₂ ∧ b = b₂ ∧ r = r₂ := by
  unfold SimpleCalculator.LogOperation at h
  rw [AddEntry_same, AddEntry_same] at h
  have he : formatOperation a op b r = formatOperation a₂ op₂ b₂ r₂ :=
    List.singleton_inj.mp (List.append_cancel_left h)
  exact ⟨he, formatOperation_injective a b r a₂ b₂ r₂ op op₂ hop hop₂ he⟩

/-- Witness for C19: the entry of `LogOperation(5, "-", -3, 8)`. -/
theorem LogOperation_entry_determines_its_arguments_witness :
    formatOperation 5 "-" (-3) 8 = "5 - -3 = 8"
    ∧ (5 : Int) = 5 ∧ "-" = "-" ∧ (-3 : Int) = -3 ∧ (8 : Int) = 8 :=
  LogOperation_entry_determines_its_arguments (SimpleCalculator.ctor 0) (fun _ => [])
    5 (-3) 8 5 (-3) 8 "-" "-" (by decide) (by decide) (by decide) (by decide) (by decide)
    (by decide) (Or.inr (Or.inl rfl)) (Or.inr (Or.inl rfl)) rfl

end Calc
